import Mathlib

/-!
# Admission webhook guarding etcd pods: embedding of `webhook.go`

The development embeds `HasPrefix`, `WebhookServer.validate` and `WebhookServer.serve`
of `webhook.go`.

* Go strings are byte sequences (`len` counts bytes, `s[i:j]` slices bytes), so a Go
  string is a list of byte values.  String literals of the source are written
  `lit "..."`, their UTF-8 encoding.
* `uint64` identifiers are natural numbers; the program only compares them, it never
  does arithmetic on them.
* The etcd client and the Kubernetes deserializer are external libraries.  What they
  answer is a parameter of `validate` (`Store`, `Decoder`); every call that `validate`
  makes to them is recorded, in program order, in the list of `Call`s returned next to
  the response.
* A run-time panic (nil dereference, slice bounds out of range) is the result `none`.
* `glog` calls only write to the log and are left out.
-/

namespace Webhook

/-- A Go string: its sequence of bytes. -/
abbrev GoString := List Nat

/-- UTF-8 encoding of one Unicode scalar value. -/
def utf8Char (c : Char) : List Nat :=
  let n := c.toNat
  if n < 0x80 then [n]
  else if n < 0x800 then [0xC0 + n / 0x40, 0x80 + n % 0x40]
  else if n < 0x10000 then [0xE0 + n / 0x1000, 0x80 + n / 0x40 % 0x40, 0x80 + n % 0x40]
  else [0xF0 + n / 0x40000, 0x80 + n / 0x1000 % 0x40, 0x80 + n / 0x40 % 0x40, 0x80 + n % 0x40]

/-- A Go string literal: the UTF-8 bytes of the text between the quotes. -/
def lit (s : String) : GoString :=
  s.toList.flatMap utf8Char

/-- Constant `etcdEndpoints` (line 31). -/
def etcdEndpoints : GoString := lit "etcd:2379"

/-- Constant `etcdPodPrefix` (line 32). -/
def etcdPodPrefix : GoString := lit "etcd"

/-- Go slice expression `s[lo:hi]` on a string; `none` is the run-time panic
"slice bounds out of range". -/
def slice (s : GoString) (lo hi : Nat) : Option GoString :=
  if lo ≤ hi ∧ hi ≤ s.length then some ((s.drop lo).take (hi - lo)) else none

/-- Function `HasPrefix` (lines 54-56): `len(s) >= len(prefix) && s[0:len(prefix)] == prefix`.
The right operand of `&&` is evaluated only when the left one is true. -/
def HasPrefix (s pfx : GoString) : Option Bool :=
  if s.length ≥ pfx.length then
    match slice s 0 pfx.length with
    | some t => some (t == pfx)
    | none => none
  else some false

/-- Type `metav1.GroupVersionKind`. -/
structure GroupVersionKind where
  Group : GoString
  Version : GoString
  Kind : GoString
deriving DecidableEq, Repr

/-- Type `runtime.RawExtension`: the serialized object. -/
structure RawExtension where
  Raw : List Nat
deriving DecidableEq, Repr

/-- Type `v1beta1.AdmissionRequest`, the fields that `webhook.go` reads. -/
structure AdmissionRequest where
  UID : GoString
  Kind : GroupVersionKind
  Name : GoString
  Namespace : GoString
  Operation : GoString
  UserInfo : GoString
  Object : RawExtension
deriving DecidableEq, Repr

/-- Type `metav1.Status`, the fields that `webhook.go` writes; a field that is not set
holds the empty string. -/
structure Status where
  Message : GoString := []
  Reason : GoString := []
deriving DecidableEq, Repr

/-- Type `v1beta1.AdmissionResponse`; `Result` is a pointer, `none` is `nil`.  A field
left out of a composite literal holds its zero value. -/
structure AdmissionResponse where
  UID : GoString := []
  Allowed : Bool := false
  Result : Option Status := none
deriving DecidableEq, Repr

/-- Type `v1beta1.AdmissionReview`; both fields are pointers, `none` is `nil`. -/
structure AdmissionReview where
  Request : Option AdmissionRequest := none
  Response : Option AdmissionResponse := none
deriving DecidableEq, Repr

/-- Type `corev1.Pod`: the decoded payload, which `validate` only logs. -/
structure Pod where
  Name : GoString
  Namespace : GoString
deriving DecidableEq, Repr

/-- Type `etcdserverpb.Member`, the fields that `validate` reads. -/
structure Member where
  ID : Nat
  Name : GoString
deriving DecidableEq, Repr

/-- Type `clientv3.StatusResponse`, the field that `validate` reads. -/
structure StatusResponse where
  Leader : Nat
deriving DecidableEq, Repr

/-- Type `clientv3.MemberListResponse`. -/
structure MemberListResponse where
  Members : List Member
deriving DecidableEq, Repr

/-- Answers of the etcd store to the three client operations of one `validate` call;
an `error` carries the text of the Go error. -/
structure Store where
  New : Except GoString Unit
  Status : Except GoString StatusResponse
  MemberList : Except GoString MemberListResponse

/-- The deserializer `codecs.UniversalDeserializer().Decode` applied to a raw payload
with a `corev1.Pod` target. -/
abbrev Decoder := List Nat → Except GoString Pod

/-- Calls that `validate` makes to the external libraries. -/
inductive Call where
  | decode
  | clientNew
  | status
  | memberList
  | close
deriving DecidableEq, Repr

/-- The calls that contact the etcd store (the Cluster State Client). -/
def Call.isStore : Call → Bool
  | .decode => false
  | _ => true

/-- Loop of lines 129-134 with `deletePodId` starting at its zero value: the ID of
the first member whose `Name` equals `deletePodName`, and 0 when the loop ends without
a match. -/
def deletePodId (members : List Member) (deletePodName : GoString) : Nat :=
  match members with
  | [] => 0
  | v :: rest => if v.Name == deletePodName then v.ID else deletePodId rest deletePodName

/-- Label `EXIT` (lines 163-167): the response built from `allowed` and `result`. -/
def EXIT (allowed : Bool) (result : Option Status) (calls : List Call) :
    Option (AdmissionResponse × List Call) :=
  some ({ Allowed := allowed, Result := result }, calls)

/-- Method `WebhookServer.validate` (lines 59-168).  The result is the response
together with the external calls made, or `none` when the method panics. -/
def validate (dec : Decoder) (st : Store) (ar : AdmissionReview) :
    Option (AdmissionResponse × List Call) :=
  match ar.Request with
  | none => none
  | some req =>
    if req.Kind.Kind == lit "Pod" then
      match dec req.Object.Raw with
      | .error err => some ({ Result := some { Message := err } }, [Call.decode])
      | .ok _ =>
        let deletePodName := req.Name
        match HasPrefix deletePodName etcdPodPrefix with
        | none => none
        | some false =>
          EXIT true (some { Reason := lit "not etcd pod,allow to delete" }) [Call.decode]
        | some true =>
          match st.New with
          | .error _ =>
            EXIT false
              (some { Reason := lit "etcd cientv3 New failed,etcd may not started or etcd endpoint is wrong" })
              [Call.decode, Call.clientNew]
          | .ok _ =>
            match st.Status with
            | .error _ =>
              EXIT false (some { Reason := lit "get etcd cientv3 status failed" })
                [Call.decode, Call.clientNew, Call.status, Call.close]
            | .ok status =>
              let leaderId := status.Leader
              match st.MemberList with
              | .error _ =>
                EXIT false (some { Reason := lit "get memberlist failed" })
                  [Call.decode, Call.clientNew, Call.status, Call.memberList, Call.close]
              | .ok memberlist =>
                let memberlistNum := memberlist.Members.length
                let podId := deletePodId memberlist.Members deletePodName
                let calls := [Call.decode, Call.clientNew, Call.status, Call.memberList, Call.close]
                if podId == 0 then
                  EXIT false (some { Reason := lit "get deletePodId error" }) calls
                else if podId != leaderId || memberlistNum == 1 then
                  EXIT true none calls
                else
                  EXIT false (some { Reason := lit "delete pod forbidented!" }) calls
    else
      EXIT false none []

/-- Type `http.Request`, what `serve` reads of it.  `Body` is `none` for a nil body and
otherwise the result of `ioutil.ReadAll`; `ContentType` is the value of
`r.Header.Get("Content-Type")`; `Path` is `r.URL.Path`. -/
structure HttpRequest where
  Body : Option (Except GoString (List Nat))
  ContentType : GoString
  Path : GoString

/-- Result of `deserializer.Decode(body, nil, &ar)` in `serve`: the error, if any, and
the value that `ar` holds after the call. -/
structure EnvelopeResult where
  err : Option GoString
  ar : AdmissionReview
deriving DecidableEq, Repr

/-- The library calls of `serve` other than those of `validate`: the envelope
deserializer, `json.Marshal` and `w.Write`. -/
structure Wire where
  Decode : List Nat → EnvelopeResult
  Marshal : AdmissionReview → Except GoString (List Nat)
  Write : List Nat → Except GoString Unit

/-- What `serve` does to the outside, in program order. -/
inductive Event where
  | httpError (msg : GoString) (code : Nat)
  | decodeEnvelope
  | validate (calls : List Call)
  | marshal (review : AdmissionReview)
  | write (data : List Nat)
deriving DecidableEq, Repr

/-- Lines 172-177 of `serve`: `body` stays nil (empty) when the request has no body or
when reading it fails. -/
def readBody (r : HttpRequest) : List Nat :=
  match r.Body with
  | some (.ok data) => data
  | _ => []

/-- Lines 208-214 of `serve`: the review to serialize.  The response, when there is
one, gets the UID of the request when `ar.Request` is not nil. -/
def buildReview (ar : AdmissionReview) (admissionResponse : Option AdmissionResponse) :
    AdmissionReview :=
  match admissionResponse with
  | some resp =>
    match ar.Request with
    | some req => { Response := some { resp with UID := req.UID } }
    | none => { Response := some resp }
  | none => {}

/-- Lines 216-225 of `serve`: marshal the review and write the bytes.  A marshalling
error is reported with status 500 and the (nil) bytes are written all the same. -/
def respond (io : Wire) (admissionReview : AdmissionReview) : List Event :=
  let marshalled : List Nat × List Event :=
    match io.Marshal admissionReview with
    | .error err =>
      ([], [Event.marshal admissionReview,
            Event.httpError (lit "could not encode response: " ++ err) 500])
    | .ok resp => (resp, [Event.marshal admissionReview])
  match io.Write marshalled.1 with
  | .error err =>
    marshalled.2 ++ [Event.write marshalled.1,
      Event.httpError (lit "could not write response: " ++ err) 500]
  | .ok _ => marshalled.2 ++ [Event.write marshalled.1]

/-- Method `WebhookServer.serve` (lines 171-226).  The result is the list of events, or
`none` when the handler panics. -/
def serve (dec : Decoder) (st : Store) (io : Wire) (r : HttpRequest) :
    Option (List Event) :=
  let body := readBody r
  if body.length == 0 then
    some [Event.httpError (lit "empty body") 400]
  else
    let contentType := r.ContentType
    if contentType != lit "application/json" then
      some [Event.httpError (lit "invalid Content-Type, expect `application/json`") 415]
    else
      let decoded := io.Decode body
      let ar := decoded.ar
      match decoded.err with
      | some err =>
        some (Event.decodeEnvelope ::
          respond io (buildReview ar (some { Result := some { Message := err } })))
      | none =>
        if r.Path == lit "/validate" then
          match validate dec st ar with
          | none => none
          | some (admissionResponse, calls) =>
            some (Event.decodeEnvelope :: Event.validate calls ::
              respond io (buildReview ar (some admissionResponse)))
        else
          some (Event.decodeEnvelope :: respond io (buildReview ar none))

/-! ## Concrete inputs -/

/-- A decoder that accepts every payload. -/
def decAccept : Decoder := fun _ => .ok { Name := [], Namespace := [] }

/-- A decoder that rejects every payload with the error text `bad`. -/
def decReject : Decoder := fun _ => .error (lit "bad")

/-- A request of kind `kind` for the object called `name`. -/
def mkReq (kind name : String) : AdmissionRequest :=
  { UID := lit "u-1", Kind := { Group := [], Version := lit "v1", Kind := lit kind },
    Name := lit name, Namespace := lit "default", Operation := lit "DELETE",
    UserInfo := [], Object := { Raw := [] } }

/-- The review that carries `mkReq kind name`. -/
def mkReview (kind name : String) : AdmissionReview :=
  { Request := some (mkReq kind name) }

/-- A store whose three operations succeed, with the given leader and members. -/
def storeOk (leader : Nat) (members : List Member) : Store :=
  { New := .ok (), Status := .ok { Leader := leader }, MemberList := .ok { Members := members } }

/-- Three members `etcd-0`, `etcd-1`, `etcd-2` with IDs 1, 2, 3. -/
def threeMembers : List Member :=
  [{ ID := 1, Name := lit "etcd-0" }, { ID := 2, Name := lit "etcd-1" },
   { ID := 3, Name := lit "etcd-2" }]

/-- Two members of which the first, `etcd-0`, has ID 0. -/
def zeroIdMembers : List Member :=
  [{ ID := 0, Name := lit "etcd-0" }, { ID := 2, Name := lit "etcd-1" }]

/-- A store whose connection cannot be opened. -/
def storeDown : Store :=
  { New := .error (lit "dial timeout"), Status := .ok { Leader := 1 },
    MemberList := .ok { Members := threeMembers } }

/-- A store that connects and reports leader 1, whose member-list query fails. -/
def storeNoMembers : Store :=
  { New := .ok (), Status := .ok { Leader := 1 }, MemberList := .error (lit "rpc failed") }

/-- Two members that share the name `etcd-0`; the second one is the leader. -/
def sameNameMembers : List Member :=
  [{ ID := 1, Name := lit "etcd-0" }, { ID := 2, Name := lit "etcd-0" }]

/-- A wire whose envelope deserializer yields `ar` without error, whose marshaller
yields the bytes `[123, 125]` and whose writes succeed. -/
def wireOk (ar : AdmissionReview) : Wire :=
  { Decode := fun _ => { err := none, ar := ar },
    Marshal := fun _ => .ok [123, 125],
    Write := fun _ => .ok () }

/-- An HTTP request with body `{}` , the given content type and path. -/
def mkHttp (contentType path : String) : HttpRequest :=
  { Body := some (.ok [123, 125]), ContentType := lit contentType, Path := lit path }

/-! ## Lemmas on the resolution loop -/

/-- The loop returns the ID of the first member with the requested name. -/
theorem deletePodId_of_find (ms : List Member) (name : GoString) (m : Member)
    (h : ms.find? (fun v => v.Name == name) = some m) : deletePodId ms name = m.ID := by
  induction ms with
  | nil => simp at h
  | cons v rest ih =>
    unfold deletePodId
    by_cases hv : (v.Name == name) = true
    · simp [List.find?, hv] at h
      subst h
      simp [hv]
    · simp [List.find?, hv] at h
      simp [hv, ih h]

/-- The loop leaves `deletePodId` at 0 when no member has the requested name. -/
theorem deletePodId_of_no_match (ms : List Member) (name : GoString)
    (h : ∀ m ∈ ms, m.Name ≠ name) : deletePodId ms name = 0 := by
  induction ms with
  | nil => rfl
  | cons v rest ih =>
    unfold deletePodId
    have hv : v.Name ≠ name := h v (List.mem_cons_self v rest)
    have hrest : ∀ m ∈ rest, m.Name ≠ name := fun m hm => h m (List.mem_cons_of_mem v hm)
    simp [hv, ih hrest]

/-- A non-zero result of the loop is the ID of the first member with the requested
name. -/
theorem find_of_deletePodId_ne_zero (ms : List Member) (name : GoString)
    (h : deletePodId ms name ≠ 0) :
    ∃ m, ms.find? (fun v => v.Name == name) = some m ∧ m.ID = deletePodId ms name := by
  induction ms with
  | nil => simp [deletePodId] at h
  | cons v rest ih =>
    unfold deletePodId at h ⊢
    by_cases hv : (v.Name == name) = true
    · exact ⟨v, by simp [List.find?, hv], by simp [hv]⟩
    · simp only [hv] at h ⊢
      obtain ⟨m, hm, hid⟩ := ih (by simpa using h)
      exact ⟨m, by simp [List.find?, hv, hm], by simpa using hid⟩

/-- On a Pod request whose payload decodes, whose name has the prefix and for which
the three store operations succeed, `validate` reaches the decision of lines 146-160. -/
theorem validate_of_snapshot (dec : Decoder) (st : Store) (ar : AdmissionReview)
    (req : AdmissionRequest) (pod : Pod) (status : StatusResponse)
    (memberlist : MemberListResponse)
    (har : ar.Request = some req) (hkind : req.Kind.Kind = lit "Pod")
    (hdec : dec req.Object.Raw = .ok pod)
    (hpre : HasPrefix req.Name etcdPodPrefix = some true)
    (hnew : st.New = .ok ()) (hst : st.Status = .ok status)
    (hml : st.MemberList = .ok memberlist) :
    validate dec st ar =
      if deletePodId memberlist.Members req.Name == 0 then
        EXIT false (some { Reason := lit "get deletePodId error" })
          [Call.decode, Call.clientNew, Call.status, Call.memberList, Call.close]
      else if deletePodId memberlist.Members req.Name != status.Leader
          || memberlist.Members.length == 1 then
        EXIT true none [Call.decode, Call.clientNew, Call.status, Call.memberList, Call.close]
      else
        EXIT false (some { Reason := lit "delete pod forbidented!" })
          [Call.decode, Call.clientNew, Call.status, Call.memberList, Call.close] := by
  simp only [validate, har, hkind, hdec, hpre, hnew, hst, hml, beq_self_eq_true, if_true]

/-- A Pod request whose payload does not decode is answered right after the decode
call. -/
theorem validate_of_decode_error (dec : Decoder) (st : Store) (ar : AdmissionReview)
    (req : AdmissionRequest) (err : GoString)
    (har : ar.Request = some req) (hkind : req.Kind.Kind = lit "Pod")
    (hdec : dec req.Object.Raw = .error err) :
    validate dec st ar = some ({ Result := some { Message := err } }, [Call.decode]) := by
  simp only [validate, har, hkind, hdec, beq_self_eq_true, if_true]

/-! ## The decision rule -/

/-- C1 (as amended): for a Pod request whose payload decodes, whose name has the prefix
`etcd` and for which connection, status query and member-list query succeed, if the
first member in list order whose `Name` equals the request name has a non-zero ID, then
`validate` returns `Allowed = true` exactly when that ID differs from the leader ID or
the list has exactly one member. -/
theorem validate_resolved_allowed_iff (dec : Decoder) (st : Store) (ar : AdmissionReview)
    (req : AdmissionRequest) (pod : Pod) (status : StatusResponse)
    (memberlist : MemberListResponse) (m : Member)
    (har : ar.Request = some req) (hkind : req.Kind.Kind = lit "Pod")
    (hdec : dec req.Object.Raw = .ok pod)
    (hpre : HasPrefix req.Name etcdPodPrefix = some true)
    (hnew : st.New = .ok ()) (hst : st.Status = .ok status)
    (hml : st.MemberList = .ok memberlist)
    (hfind : memberlist.Members.find? (fun v => v.Name == req.Name) = some m)
    (hid : m.ID ≠ 0) :
    ∃ resp calls, validate dec st ar = some (resp, calls) ∧
      (resp.Allowed = true ↔ (m.ID ≠ status.Leader ∨ memberlist.Members.length = 1)) := by
  rw [validate_of_snapshot dec st ar req pod status memberlist har hkind hdec hpre hnew hst hml,
    deletePodId_of_find _ _ _ hfind]
  by_cases hrule : m.ID ≠ status.Leader ∨ memberlist.Members.length = 1
  · refine ⟨{ Allowed := true, Result := none },
      [Call.decode, Call.clientNew, Call.status, Call.memberList, Call.close], ?_, ?_⟩
    · rcases hrule with h | h <;> simp [EXIT, hid, h]
    · simp [hrule]
  · refine ⟨{ Allowed := false, Result := some { Reason := lit "delete pod forbidented!" } },
      [Call.decode, Call.clientNew, Call.status, Call.memberList, Call.close], ?_, ?_⟩
    · have h1 : m.ID = status.Leader := by
        by_contra hne
        exact hrule (Or.inl hne)
      have h2 : memberlist.Members.length ≠ 1 := fun h => hrule (Or.inr h)
      simp [EXIT, hid, h1, h2]
      intro h0
      exact absurd (h1.trans h0) hid
    · simp [hrule]

/-- Witness of C1 (as amended): `etcd-1` (ID 2) among three members led by member 1. -/
theorem validate_resolved_allowed_iff_witness :
    ∃ resp calls,
      validate decAccept (storeOk 1 threeMembers) (mkReview "Pod" "etcd-1") = some (resp, calls) ∧
      (resp.Allowed = true ↔ ((2 : Nat) ≠ 1 ∨ threeMembers.length = 1)) :=
  validate_resolved_allowed_iff decAccept (storeOk 1 threeMembers) (mkReview "Pod" "etcd-1")
    (mkReq "Pod" "etcd-1") { Name := [], Namespace := [] } { Leader := 1 }
    { Members := threeMembers } { ID := 2, Name := lit "etcd-1" }
    rfl rfl rfl (by decide) rfl rfl rfl (by decide) (by decide)

/-- Counterexample to C1 as stated: the member named `etcd-0` has ID 0, the leader has
ID 2 and there are two members, so the member's ID differs from the leader ID, yet
`validate` returns `Allowed = false` with the reason of an unresolved name. -/
theorem validate_zero_id_member_denied :
    HasPrefix (lit "etcd-0") etcdPodPrefix = some true ∧
    ({ ID := 0, Name := lit "etcd-0" } : Member) ∈ zeroIdMembers ∧
    ((0 : Nat) ≠ 2 ∨ zeroIdMembers.length = 1) ∧
    validate decAccept (storeOk 2 zeroIdMembers) (mkReview "Pod" "etcd-0") =
      some ({ Allowed := false, Result := some { Reason := lit "get deletePodId error" } },
        [Call.decode, Call.clientNew, Call.status, Call.memberList, Call.close]) := by
  decide

/-- C2 (as amended): for a Pod request with an `etcd`-prefixed name and a successfully
fetched snapshot with more than one member, if the first member in list order whose
`Name` equals the request name has the leader ID, then `validate` returns
`Allowed = false`, and (the payload having decoded, as it has whenever the snapshot is
fetched) a result with a non-empty reason. -/
theorem validate_leader_with_peers_denied (dec : Decoder) (st : Store) (ar : AdmissionReview)
    (req : AdmissionRequest) (status : StatusResponse)
    (memberlist : MemberListResponse) (m : Member)
    (har : ar.Request = some req) (hkind : req.Kind.Kind = lit "Pod")
    (hpre : HasPrefix req.Name etcdPodPrefix = some true)
    (hnew : st.New = .ok ()) (hst : st.Status = .ok status)
    (hml : st.MemberList = .ok memberlist)
    (hmany : 1 < memberlist.Members.length)
    (hfind : memberlist.Members.find? (fun v => v.Name == req.Name) = some m)
    (hlead : m.ID = status.Leader) :
    ∃ resp calls, validate dec st ar = some (resp, calls) ∧ resp.Allowed = false ∧
      (∀ pod, dec req.Object.Raw = .ok pod →
        ∃ s, resp.Result = some s ∧ s.Reason ≠ []) := by
  cases hdec : dec req.Object.Raw with
  | error err =>
    rw [validate_of_decode_error dec st ar req err har hkind hdec]
    exact ⟨_, _, rfl, rfl, fun pod h => by simp at h⟩
  | ok pod =>
    rw [validate_of_snapshot dec st ar req pod status memberlist har hkind hdec hpre hnew hst hml,
      deletePodId_of_find _ _ _ hfind]
    by_cases h0 : m.ID = 0
    · refine ⟨{ Allowed := false, Result := some { Reason := lit "get deletePodId error" } },
        [Call.decode, Call.clientNew, Call.status, Call.memberList, Call.close],
        by simp [EXIT, h0], rfl, fun _ _ => ⟨_, rfl, by decide⟩⟩
    · have hlen : memberlist.Members.length ≠ 1 := by omega
      refine ⟨{ Allowed := false, Result := some { Reason := lit "delete pod forbidented!" } },
        [Call.decode, Call.clientNew, Call.status, Call.memberList, Call.close],
        ?_, rfl, fun _ _ => ⟨_, rfl, by decide⟩⟩
      simp [EXIT, h0, hlead, hlen]
      intro h1
      exact absurd (hlead.trans h1) h0

/-- Witness of C2 (as amended): `etcd-0` is the leader (ID 1) among three members. -/
theorem validate_leader_with_peers_denied_witness :
    1 < threeMembers.length ∧
    ∃ resp calls,
      validate decAccept (storeOk 1 threeMembers) (mkReview "Pod" "etcd-0") = some (resp, calls) ∧
      resp.Allowed = false ∧
      (∀ pod, decAccept (mkReq "Pod" "etcd-0").Object.Raw = .ok pod →
        ∃ s, resp.Result = some s ∧ s.Reason ≠ []) :=
  ⟨by decide,
    validate_leader_with_peers_denied decAccept (storeOk 1 threeMembers)
      (mkReview "Pod" "etcd-0") (mkReq "Pod" "etcd-0") { Leader := 1 }
      { Members := threeMembers } { ID := 1, Name := lit "etcd-0" }
      rfl rfl (by decide) rfl rfl rfl (by decide) (by decide) rfl⟩

/-- Counterexample to C2 as stated: two members are called `etcd-0`, the second of
them (ID 2) is the leader and the list has more than one member, yet for the request
name `etcd-0` the loop stops at the first of them (ID 1) and `validate` returns
`Allowed = true`, without a result. -/
theorem validate_same_name_leader_approved :
    HasPrefix (lit "etcd-0") etcdPodPrefix = some true ∧
    1 < sameNameMembers.length ∧
    (∃ m ∈ sameNameMembers, m.Name = lit "etcd-0" ∧ m.ID = 2) ∧
    validate decAccept (storeOk 2 sameNameMembers) (mkReview "Pod" "etcd-0") =
      some ({ Allowed := true, Result := none },
        [Call.decode, Call.clientNew, Call.status, Call.memberList, Call.close]) := by
  refine ⟨by decide, by decide, ⟨{ ID := 2, Name := lit "etcd-0" }, by decide, rfl, rfl⟩,
    by decide⟩

/-- C3: for a Pod request whose payload decodes and whose name lacks the prefix `etcd`,
`validate` returns `Allowed = true` with the non-empty reason
"not etcd pod,allow to delete", and the only external call is the decode: no store
operation is invoked, whatever the store would answer. -/
theorem validate_unprefixed_allowed (dec : Decoder) (st : Store) (ar : AdmissionReview)
    (req : AdmissionRequest) (pod : Pod)
    (har : ar.Request = some req) (hkind : req.Kind.Kind = lit "Pod")
    (hdec : dec req.Object.Raw = .ok pod)
    (hpre : HasPrefix req.Name etcdPodPrefix = some false) :
    ∃ resp calls, validate dec st ar = some (resp, calls) ∧ resp.Allowed = true ∧
      resp.Result = some { Reason := lit "not etcd pod,allow to delete" } ∧
      lit "not etcd pod,allow to delete" ≠ [] ∧
      ∀ c ∈ calls, c.isStore = false := by
  refine ⟨{ Allowed := true, Result := some { Reason := lit "not etcd pod,allow to delete" } },
    [Call.decode], ?_, rfl, rfl, by decide, by decide⟩
  simp only [validate, har, hkind, hdec, hpre, beq_self_eq_true, if_true, EXIT]

/-- Witness of C3: the pod `web-1` while the store is down. -/
theorem validate_unprefixed_allowed_witness :
    HasPrefix (mkReq "Pod" "web-1").Name etcdPodPrefix = some false ∧
    ∃ resp calls,
      validate decAccept storeDown (mkReview "Pod" "web-1") = some (resp, calls) ∧
      resp.Allowed = true ∧
      resp.Result = some { Reason := lit "not etcd pod,allow to delete" } ∧
      lit "not etcd pod,allow to delete" ≠ [] ∧
      ∀ c ∈ calls, c.isStore = false :=
  ⟨by decide,
    validate_unprefixed_allowed decAccept storeDown (mkReview "Pod" "web-1")
      (mkReq "Pod" "web-1") { Name := [], Namespace := [] } rfl rfl rfl (by decide)⟩

/-- C4: whenever `validate` returns a verdict with `Allowed = true`, the request is
present and of kind Pod, the payload decoded, and either the name lacks the prefix
`etcd`, or connection, status query and member-list query all succeeded, the name
resolved to a member of the list, and that member's ID differs from the leader ID or
the list has exactly one member.  Every other returned verdict has `Allowed = false`. -/
theorem validate_allowed_only_by_reasoning (dec : Decoder) (st : Store)
    (ar : AdmissionReview) (resp : AdmissionResponse) (calls : List Call)
    (hret : validate dec st ar = some (resp, calls)) (hallow : resp.Allowed = true) :
    ∃ req, ar.Request = some req ∧ req.Kind.Kind = lit "Pod" ∧
      (∃ pod, dec req.Object.Raw = .ok pod) ∧
      (HasPrefix req.Name etcdPodPrefix = some false ∨
        (HasPrefix req.Name etcdPodPrefix = some true ∧
          ∃ status memberlist m, st.New = .ok () ∧ st.Status = .ok status ∧
            st.MemberList = .ok memberlist ∧
            memberlist.Members.find? (fun v => v.Name == req.Name) = some m ∧
            (m.ID ≠ status.Leader ∨ memberlist.Members.length = 1))) := by
  cases har : ar.Request with
  | none => simp [validate, har] at hret
  | some req =>
    refine ⟨req, rfl, ?_⟩
    by_cases hkind : req.Kind.Kind = lit "Pod"
    · refine ⟨hkind, ?_⟩
      cases hdec : dec req.Object.Raw with
      | error err =>
        rw [validate_of_decode_error dec st ar req err har hkind hdec] at hret
        simp only [Option.some.injEq, Prod.mk.injEq] at hret
        rw [← hret.1] at hallow
        simp at hallow
      | ok pod =>
        refine ⟨⟨pod, rfl⟩, ?_⟩
        cases hpre : HasPrefix req.Name etcdPodPrefix with
        | none => simp [validate, har, hkind, hdec, hpre] at hret
        | some b =>
          cases b with
          | false => exact Or.inl rfl
          | true =>
            refine Or.inr ⟨rfl, ?_⟩
            cases hnew : st.New with
            | error e =>
              simp only [validate, har, hkind, hdec, hpre, hnew, beq_self_eq_true, if_true,
                EXIT, Option.some.injEq, Prod.mk.injEq] at hret
              rw [← hret.1] at hallow
              simp at hallow
            | ok u =>
              cases hst : st.Status with
              | error e =>
                simp only [validate, har, hkind, hdec, hpre, hnew, hst, beq_self_eq_true,
                  if_true, EXIT, Option.some.injEq, Prod.mk.injEq] at hret
                rw [← hret.1] at hallow
                simp at hallow
              | ok status =>
                cases hml : st.MemberList with
                | error e =>
                  simp only [validate, har, hkind, hdec, hpre, hnew, hst, hml,
                    beq_self_eq_true, if_true, EXIT, Option.some.injEq, Prod.mk.injEq] at hret
                  rw [← hret.1] at hallow
                  simp at hallow
                | ok memberlist =>
                  rw [validate_of_snapshot dec st ar req pod status memberlist har hkind hdec
                    hpre hnew hst hml] at hret
                  by_cases h0 : deletePodId memberlist.Members req.Name = 0
                  · simp only [h0, beq_self_eq_true, if_true, EXIT, Option.some.injEq,
                      Prod.mk.injEq] at hret
                    rw [← hret.1] at hallow
                    simp at hallow
                  · obtain ⟨m, hfind, hid⟩ := find_of_deletePodId_ne_zero _ _ h0
                    refine ⟨status, memberlist, m, rfl, rfl, rfl, hfind, ?_⟩
                    by_contra hrule
                    have h1 : m.ID = status.Leader := by
                      by_contra hne
                      exact hrule (Or.inl hne)
                    have h2 : memberlist.Members.length ≠ 1 := fun h => hrule (Or.inr h)
                    rw [← hid] at hret h0
                    simp [EXIT, h0, h1, h2] at hret
                    have h3 : status.Leader ≠ 0 := fun h => h0 (h1.trans h)
                    simp [h3] at hret
                    rw [← hret.1] at hallow
                    simp at hallow
    · simp only [validate, har, EXIT] at hret
      have hk : (req.Kind.Kind == lit "Pod") = false := by simpa using hkind
      simp only [hk, Bool.false_eq_true, if_false, Option.some.injEq, Prod.mk.injEq] at hret
      rw [← hret.1] at hallow
      simp at hallow

/-- Witness of C4: the approval of the non-leader `etcd-1` among three members. -/
theorem validate_allowed_only_by_reasoning_witness :
    validate decAccept (storeOk 1 threeMembers) (mkReview "Pod" "etcd-1") =
      some ({ Allowed := true, Result := none },
        [Call.decode, Call.clientNew, Call.status, Call.memberList, Call.close]) ∧
    ∃ req, (mkReview "Pod" "etcd-1").Request = some req ∧ req.Kind.Kind = lit "Pod" ∧
      (∃ pod, decAccept req.Object.Raw = .ok pod) ∧
      (HasPrefix req.Name etcdPodPrefix = some false ∨
        (HasPrefix req.Name etcdPodPrefix = some true ∧
          ∃ status memberlist m, (storeOk 1 threeMembers).New = .ok () ∧
            (storeOk 1 threeMembers).Status = .ok status ∧
            (storeOk 1 threeMembers).MemberList = .ok memberlist ∧
            memberlist.Members.find? (fun v => v.Name == req.Name) = some m ∧
            (m.ID ≠ status.Leader ∨ memberlist.Members.length = 1))) :=
  ⟨by decide,
    validate_allowed_only_by_reasoning decAccept (storeOk 1 threeMembers)
      (mkReview "Pod" "etcd-1") { Allowed := true, Result := none }
      [Call.decode, Call.clientNew, Call.status, Call.memberList, Call.close]
      (by decide) rfl⟩

/-! ## Failure paths -/

/-- C5: for a Pod request with an `etcd`-prefixed name and a store whose connection
opens, if the status (leader) query fails or the member-list query fails, `validate`
returns `Allowed = false`, whatever the other query answers.  The payload having decoded
(as it has whenever the store is contacted), a failed status query gives the reason
"get etcd cientv3 status failed" and a failed member-list query after a successful
status query gives the reason "get memberlist failed"; the two reasons differ. -/
theorem validate_query_failure_denied (dec : Decoder) (st : Store) (ar : AdmissionReview)
    (req : AdmissionRequest)
    (har : ar.Request = some req) (hkind : req.Kind.Kind = lit "Pod")
    (hpre : HasPrefix req.Name etcdPodPrefix = some true)
    (hnew : st.New = .ok ())
    (hfail : (∃ e, st.Status = .error e) ∨ (∃ e, st.MemberList = .error e)) :
    ∃ resp calls, validate dec st ar = some (resp, calls) ∧ resp.Allowed = false ∧
      (∀ pod, dec req.Object.Raw = .ok pod →
        ((∃ e, st.Status = .error e) →
          resp.Result = some { Reason := lit "get etcd cientv3 status failed" }) ∧
        ((∃ status, st.Status = .ok status) →
          resp.Result = some { Reason := lit "get memberlist failed" })) ∧
      lit "get etcd cientv3 status failed" ≠ lit "get memberlist failed" := by
  cases hdec : dec req.Object.Raw with
  | error err =>
    rw [validate_of_decode_error dec st ar req err har hkind hdec]
    exact ⟨_, _, rfl, rfl, fun pod h => by simp at h, by decide⟩
  | ok pod =>
    cases hst : st.Status with
    | error e =>
      refine ⟨{ Allowed := false,
                Result := some { Reason := lit "get etcd cientv3 status failed" } },
        [Call.decode, Call.clientNew, Call.status, Call.close], ?_, rfl, ?_, by decide⟩
      · simp only [validate, har, hkind, hdec, hpre, hnew, hst, beq_self_eq_true, if_true,
          EXIT]
      · intro _ _
        exact ⟨fun _ => rfl, fun h => by simp at h⟩
    | ok status =>
      have hml : ∃ e, st.MemberList = .error e := by
        rcases hfail with ⟨e, he⟩ | h
        · rw [hst] at he
          simp at he
        · exact h
      obtain ⟨e, hml⟩ := hml
      refine ⟨{ Allowed := false, Result := some { Reason := lit "get memberlist failed" } },
        [Call.decode, Call.clientNew, Call.status, Call.memberList, Call.close],
        ?_, rfl, ?_, by decide⟩
      · simp only [validate, har, hkind, hdec, hpre, hnew, hst, hml, beq_self_eq_true,
          if_true, EXIT]
      · intro _ _
        exact ⟨fun h => by simp at h, fun _ => rfl⟩

/-- Witness of C5: the member-list query fails for the non-leader `etcd-1`. -/
theorem validate_query_failure_denied_witness :
    ((∃ e, storeNoMembers.Status = .error e) ∨ (∃ e, storeNoMembers.MemberList = .error e)) ∧
    ∃ resp calls,
      validate decAccept storeNoMembers (mkReview "Pod" "etcd-1") = some (resp, calls) ∧
      resp.Allowed = false ∧
      (∀ pod, decAccept (mkReq "Pod" "etcd-1").Object.Raw = .ok pod →
        ((∃ e, storeNoMembers.Status = .error e) →
          resp.Result = some { Reason := lit "get etcd cientv3 status failed" }) ∧
        ((∃ status, storeNoMembers.Status = .ok status) →
          resp.Result = some { Reason := lit "get memberlist failed" })) ∧
      lit "get etcd cientv3 status failed" ≠ lit "get memberlist failed" :=
  ⟨Or.inr ⟨lit "rpc failed", rfl⟩,
    validate_query_failure_denied decAccept storeNoMembers (mkReview "Pod" "etcd-1")
      (mkReq "Pod" "etcd-1") rfl rfl (by decide) rfl (Or.inr ⟨lit "rpc failed", rfl⟩)⟩

/-- C6: for a Pod request with an `etcd`-prefixed name, if opening the store connection
fails then `validate` returns `Allowed = false` and issues neither the status query nor
the member-list query; the payload having decoded (as it has whenever the connection is
attempted), the result carries the non-empty reason
"etcd cientv3 New failed,etcd may not started or etcd endpoint is wrong" and the calls
made are the decode and the one connection attempt. -/
theorem validate_client_failure_denied (dec : Decoder) (st : Store) (ar : AdmissionReview)
    (req : AdmissionRequest) (e : GoString)
    (har : ar.Request = some req) (hkind : req.Kind.Kind = lit "Pod")
    (hpre : HasPrefix req.Name etcdPodPrefix = some true)
    (hnew : st.New = .error e) :
    ∃ resp calls, validate dec st ar = some (resp, calls) ∧ resp.Allowed = false ∧
      Call.status ∉ calls ∧ Call.memberList ∉ calls ∧
      (∀ pod, dec req.Object.Raw = .ok pod →
        resp.Result = some
          { Reason := lit "etcd cientv3 New failed,etcd may not started or etcd endpoint is wrong" } ∧
        calls = [Call.decode, Call.clientNew]) ∧
      lit "etcd cientv3 New failed,etcd may not started or etcd endpoint is wrong" ≠ [] := by
  cases hdec : dec req.Object.Raw with
  | error err =>
    rw [validate_of_decode_error dec st ar req err har hkind hdec]
    exact ⟨_, _, rfl, rfl, by decide, by decide, fun pod h => by simp at h, by decide⟩
  | ok pod =>
    refine ⟨{ Allowed := false,
              Result := some { Reason := lit "etcd cientv3 New failed,etcd may not started or etcd endpoint is wrong" } },
      [Call.decode, Call.clientNew], ?_, rfl, by decide, by decide,
      fun _ _ => ⟨rfl, rfl⟩, by decide⟩
    simp only [validate, har, hkind, hdec, hpre, hnew, beq_self_eq_true, if_true, EXIT]

/-- Witness of C6: the store is down when `etcd-0` is to be deleted. -/
theorem validate_client_failure_denied_witness :
    storeDown.New = .error (lit "dial timeout") ∧
    ∃ resp calls,
      validate decAccept storeDown (mkReview "Pod" "etcd-0") = some (resp, calls) ∧
      resp.Allowed = false ∧ Call.status ∉ calls ∧ Call.memberList ∉ calls ∧
      (∀ pod, decAccept (mkReq "Pod" "etcd-0").Object.Raw = .ok pod →
        resp.Result = some
          { Reason := lit "etcd cientv3 New failed,etcd may not started or etcd endpoint is wrong" } ∧
        calls = [Call.decode, Call.clientNew]) ∧
      lit "etcd cientv3 New failed,etcd may not started or etcd endpoint is wrong" ≠ [] :=
  ⟨rfl,
    validate_client_failure_denied decAccept storeDown (mkReview "Pod" "etcd-0")
      (mkReq "Pod" "etcd-0") (lit "dial timeout") rfl rfl (by decide) rfl⟩

/-- C7: for a Pod request with an `etcd`-prefixed name and a successfully fetched
snapshot (any leader ID, any member list, the empty list and a one-element list
included), if no member of the list has `Name` equal to the request name then
`validate` returns `Allowed = false`, and (the payload having decoded, as it has
whenever the snapshot is fetched) the non-empty reason "get deletePodId error". -/
theorem validate_unresolved_denied (dec : Decoder) (st : Store) (ar : AdmissionReview)
    (req : AdmissionRequest) (status : StatusResponse) (memberlist : MemberListResponse)
    (har : ar.Request = some req) (hkind : req.Kind.Kind = lit "Pod")
    (hpre : HasPrefix req.Name etcdPodPrefix = some true)
    (hnew : st.New = .ok ()) (hst : st.Status = .ok status)
    (hml : st.MemberList = .ok memberlist)
    (hno : ∀ m ∈ memberlist.Members, m.Name ≠ req.Name) :
    ∃ resp calls, validate dec st ar = some (resp, calls) ∧ resp.Allowed = false ∧
      (∀ pod, dec req.Object.Raw = .ok pod →
        resp.Result = some { Reason := lit "get deletePodId error" }) ∧
      lit "get deletePodId error" ≠ [] := by
  cases hdec : dec req.Object.Raw with
  | error err =>
    rw [validate_of_decode_error dec st ar req err har hkind hdec]
    exact ⟨_, _, rfl, rfl, fun pod h => by simp at h, by decide⟩
  | ok pod =>
    rw [validate_of_snapshot dec st ar req pod status memberlist har hkind hdec hpre hnew hst hml,
      deletePodId_of_no_match _ _ hno]
    exact ⟨{ Allowed := false, Result := some { Reason := lit "get deletePodId error" } },
      [Call.decode, Call.clientNew, Call.status, Call.memberList, Call.close],
      rfl, rfl, fun _ _ => rfl, by decide⟩

/-- Witness of C7: `etcd-9` is not among the three members. -/
theorem validate_unresolved_denied_witness :
    (∀ m ∈ threeMembers, m.Name ≠ (mkReq "Pod" "etcd-9").Name) ∧
    ∃ resp calls,
      validate decAccept (storeOk 1 threeMembers) (mkReview "Pod" "etcd-9") =
        some (resp, calls) ∧
      resp.Allowed = false ∧
      (∀ pod, decAccept (mkReq "Pod" "etcd-9").Object.Raw = .ok pod →
        resp.Result = some { Reason := lit "get deletePodId error" }) ∧
      lit "get deletePodId error" ≠ [] :=
  ⟨by decide,
    validate_unresolved_denied decAccept (storeOk 1 threeMembers) (mkReview "Pod" "etcd-9")
      (mkReq "Pod" "etcd-9") { Leader := 1 } { Members := threeMembers }
      rfl rfl (by decide) rfl rfl rfl (by decide)⟩

/-- C8: for a request whose object kind is not "Pod", `validate` returns `Allowed = false`
with no `Result` and makes no external call: the payload is not decoded and the store
is not contacted, whatever the request name is. -/
theorem validate_other_kind_denied (dec : Decoder) (st : Store) (ar : AdmissionReview)
    (req : AdmissionRequest)
    (har : ar.Request = some req) (hkind : req.Kind.Kind ≠ lit "Pod") :
    validate dec st ar = some ({ Allowed := false, Result := none }, []) := by
  have hk : (req.Kind.Kind == lit "Pod") = false := by simpa using hkind
  simp only [validate, har, hk, Bool.false_eq_true, if_false, EXIT]

/-- Witness of C8: a Service named `etcd-0`. -/
theorem validate_other_kind_denied_witness :
    (mkReq "Service" "etcd-0").Kind.Kind ≠ lit "Pod" ∧
    validate decAccept (storeOk 1 threeMembers) (mkReview "Service" "etcd-0") =
      some ({ Allowed := false, Result := none }, []) :=
  ⟨by decide,
    validate_other_kind_denied decAccept (storeOk 1 threeMembers)
      (mkReview "Service" "etcd-0") (mkReq "Service" "etcd-0") rfl (by decide)⟩

/-- C9: for a Pod request whose payload fails to decode with error text `err`,
`validate` returns at once `Allowed = false` with a `Result` whose `Message` is `err`;
the decode is the only external call, so the store is not contacted, whether or not the
request name has the prefix `etcd`. -/
theorem validate_undecodable_denied (dec : Decoder) (st : Store) (ar : AdmissionReview)
    (req : AdmissionRequest) (err : GoString)
    (har : ar.Request = some req) (hkind : req.Kind.Kind = lit "Pod")
    (hdec : dec req.Object.Raw = .error err) :
    ∃ resp calls, validate dec st ar = some (resp, calls) ∧ resp.Allowed = false ∧
      resp.Result = some { Message := err } ∧ calls = [Call.decode] ∧
      ∀ c ∈ calls, c.isStore = false := by
  refine ⟨{ Result := some { Message := err } }, [Call.decode], ?_, rfl, rfl, rfl, by decide⟩
  simp only [validate, har, hkind, hdec, beq_self_eq_true, if_true]

/-- Witness of C9: an undecodable payload for the unprefixed pod `web-1`. -/
theorem validate_undecodable_denied_witness :
    HasPrefix (mkReq "Pod" "web-1").Name etcdPodPrefix = some false ∧
    ∃ resp calls,
      validate decReject (storeOk 1 threeMembers) (mkReview "Pod" "web-1") =
        some (resp, calls) ∧
      resp.Allowed = false ∧ resp.Result = some { Message := lit "bad" } ∧
      calls = [Call.decode] ∧ ∀ c ∈ calls, c.isStore = false :=
  ⟨by decide,
    validate_undecodable_denied decReject (storeOk 1 threeMembers) (mkReview "Pod" "web-1")
      (mkReq "Pod" "web-1") (lit "bad") rfl rfl rfl⟩

/-! ## Reasons carried by the verdict -/

/-- C10 (the code at the failing inputs): the approval of the non-leader `etcd-1` among
three members, and the approval of the sole member `etcd-0`, are returned with
`Allowed = true` and no `Result` at all, while the approval of an unprefixed pod carries
a reason. -/
theorem validate_decision_approval_without_result :
    validate decAccept (storeOk 1 threeMembers) (mkReview "Pod" "etcd-1") =
      some ({ Allowed := true, Result := none },
        [Call.decode, Call.clientNew, Call.status, Call.memberList, Call.close]) ∧
    validate decAccept (storeOk 1 [{ ID := 1, Name := lit "etcd-0" }]) (mkReview "Pod" "etcd-0") =
      some ({ Allowed := true, Result := none },
        [Call.decode, Call.clientNew, Call.status, Call.memberList, Call.close]) ∧
    validate decAccept (storeOk 1 threeMembers) (mkReview "Pod" "web-1") =
      some ({ Allowed := true, Result := some { Reason := lit "not etcd pod,allow to delete" } },
        [Call.decode]) := by
  decide

/-! ## The prefix test -/

/-- The slice of `HasPrefix` is in range whenever it is evaluated, so `HasPrefix`
always yields a boolean: the one computed on the first `len(prefix)` bytes. -/
theorem HasPrefix_eq_some (s pfx : GoString) :
    HasPrefix s pfx = some (decide (pfx.length ≤ s.length) && (s.take pfx.length == pfx)) := by
  unfold HasPrefix slice
  by_cases h : pfx.length ≤ s.length
  · simp [h]
  · simp [h]

/-- A request that is present always gets a response from `validate`. -/
theorem validate_returns (dec : Decoder) (st : Store) (ar : AdmissionReview)
    (req : AdmissionRequest) (har : ar.Request = some req) :
    ∃ resp calls, validate dec st ar = some (resp, calls) := by
  simp only [validate, har, HasPrefix_eq_some, EXIT]
  repeat (first | exact ⟨_, _, rfl⟩ | contradiction | split)

/-- C15: `HasPrefix` is total and is the prefix relation.  For all strings `s` and
`pfx`, the slice `s[0:len(pfx)]` is in range whenever `len(s) >= len(pfx)`, which is
the only case in which it is evaluated; `HasPrefix s pfx` yields a boolean, which is
true exactly when `s = pfx ++ t` for some `t`; `HasPrefix s ""` is true; and
`HasPrefix s pfx` is false when `s` is shorter than `pfx`. -/
theorem HasPrefix_total_and_prefix_relation (s pfx : GoString) :
    (s.length ≥ pfx.length → slice s 0 pfx.length = some (s.take pfx.length)) ∧
    (∃ b, HasPrefix s pfx = some b ∧ (b = true ↔ ∃ t, s = pfx ++ t)) ∧
    HasPrefix s [] = some true ∧
    (s.length < pfx.length → HasPrefix s pfx = some false) := by
  refine ⟨?_, ?_, ?_, ?_⟩
  · intro h
    simp [slice, h]
  · refine ⟨_, HasPrefix_eq_some s pfx, ?_⟩
    constructor
    · intro h
      simp only [Bool.and_eq_true, decide_eq_true_eq, beq_iff_eq] at h
      refine ⟨s.drop pfx.length, ?_⟩
      conv_lhs => rw [← List.take_append_drop pfx.length s]
      rw [h.2]
    · rintro ⟨t, rfl⟩
      simp
  · simp [HasPrefix_eq_some]
  · intro h
    have hle : ¬ pfx.length ≤ s.length := by omega
    simp [HasPrefix_eq_some, hle]

/-! ## The gateway -/

/-- The review handed to `json.Marshal` is an event of `respond`, and the only review
among its events. -/
theorem respond_marshal (io : Wire) (review : AdmissionReview) :
    Event.marshal review ∈ respond io review ∧
    ∀ rv, Event.marshal rv ∈ respond io review → rv = review := by
  cases hM : io.Marshal review with
  | error err =>
    cases hW : io.Write [] with
    | error e => simp [respond, hM, hW]
    | ok u => simp [respond, hM, hW]
  | ok bytes =>
    cases hW : io.Write bytes with
    | error e => simp [respond, hM, hW]
    | ok u => simp [respond, hM, hW]

/-- C11: for an HTTP request with a non-empty body and Content-Type `application/json`
whose envelope decodes without error with a request present, `serve` returns, hands
exactly one review to `json.Marshal`, and every response verdict in that review has the
UID of the request.  On the path `/validate` the review carries the verdict that
`validate` returned (allow or deny, whatever its result), with the UID of the request. -/
theorem serve_response_uid (dec : Decoder) (st : Store) (io : Wire) (r : HttpRequest)
    (ar : AdmissionReview) (req : AdmissionRequest)
    (hbody : readBody r ≠ [])
    (hct : r.ContentType = lit "application/json")
    (hdecode : io.Decode (readBody r) = { err := none, ar := ar })
    (hreq : ar.Request = some req) :
    ∃ evs review, serve dec st io r = some evs ∧ Event.marshal review ∈ evs ∧
      (∀ rv, Event.marshal rv ∈ evs → rv = review) ∧
      (∀ resp, review.Response = some resp → resp.UID = req.UID) ∧
      (r.Path = lit "/validate" →
        ∃ resp calls, validate dec st ar = some (resp, calls) ∧
          review.Response = some { resp with UID := req.UID }) := by
  have hlen : (List.length (readBody r) == 0) = false := by
    cases hb : readBody r with
    | nil => exact absurd hb hbody
    | cons a l => simp
  by_cases hpath : r.Path = lit "/validate"
  · obtain ⟨resp, calls, hv⟩ := validate_returns dec st ar req hreq
    refine ⟨Event.decodeEnvelope :: Event.validate calls ::
        respond io (buildReview ar (some resp)),
      buildReview ar (some resp), ?_, ?_, ?_, ?_, ?_⟩
    · simp [serve, hlen, hct, hdecode, hpath, hv]
    · simp [(respond_marshal io (buildReview ar (some resp))).1]
    · intro rv hrv
      simp only [List.mem_cons, reduceCtorEq, false_or] at hrv
      exact (respond_marshal io (buildReview ar (some resp))).2 rv hrv
    · intro resp2 h
      simp only [buildReview, hreq, AdmissionReview.mk.injEq, Option.some.injEq] at h
      rw [← h]
    · intro _
      exact ⟨resp, calls, hv, by simp [buildReview, hreq]⟩
  · refine ⟨Event.decodeEnvelope :: respond io (buildReview ar none),
      buildReview ar none, ?_, ?_, ?_, ?_, ?_⟩
    · have hp : (r.Path == lit "/validate") = false := by simpa using hpath
      simp [serve, hlen, hct, hdecode, hp]
    · simp [(respond_marshal io (buildReview ar none)).1]
    · intro rv hrv
      simp only [List.mem_cons, reduceCtorEq, false_or] at hrv
      exact (respond_marshal io (buildReview ar none)).2 rv hrv
    · intro resp2 h
      simp [buildReview] at h
    · intro h
      exact absurd h hpath

/-- Witness of C11: the approval of `etcd-1` is serialized with the UID `u-1` of the
request. -/
theorem serve_response_uid_witness :
    readBody (mkHttp "application/json" "/validate") ≠ [] ∧
    ∃ evs review,
      serve decAccept (storeOk 1 threeMembers) (wireOk (mkReview "Pod" "etcd-1"))
        (mkHttp "application/json" "/validate") = some evs ∧
      Event.marshal review ∈ evs ∧
      (∀ rv, Event.marshal rv ∈ evs → rv = review) ∧
      (∀ resp, review.Response = some resp → resp.UID = (mkReq "Pod" "etcd-1").UID) ∧
      ((mkHttp "application/json" "/validate").Path = lit "/validate" →
        ∃ resp calls,
          validate decAccept (storeOk 1 threeMembers) (mkReview "Pod" "etcd-1") =
            some (resp, calls) ∧
          review.Response = some { resp with UID := (mkReq "Pod" "etcd-1").UID }) :=
  ⟨by decide,
    serve_response_uid decAccept (storeOk 1 threeMembers) (wireOk (mkReview "Pod" "etcd-1"))
      (mkHttp "application/json" "/validate") (mkReview "Pod" "etcd-1") (mkReq "Pod" "etcd-1")
      (by decide) rfl rfl rfl⟩

/-- C12: `serve` rejects before decoding.  A request whose body is nil, unreadable or
empty is answered with the error "empty body" and status 400; a request with a
non-empty body whose Content-Type is not exactly `application/json` is answered with
status 415.  In both cases that error is the only event: the envelope is not decoded,
`validate` is not called and the store is not contacted. -/
theorem serve_rejects_before_decoding (dec : Decoder) (st : Store) (io : Wire)
    (r : HttpRequest) :
    ((r.Body = none ∨ (∃ e, r.Body = some (.error e)) ∨ r.Body = some (.ok [])) →
      readBody r = []) ∧
    (readBody r = [] →
      serve dec st io r = some [Event.httpError (lit "empty body") 400]) ∧
    (readBody r ≠ [] → r.ContentType ≠ lit "application/json" →
      serve dec st io r =
        some [Event.httpError (lit "invalid Content-Type, expect `application/json`") 415]) := by
  refine ⟨?_, ?_, ?_⟩
  · rintro (h | ⟨e, h⟩ | h) <;> simp [readBody, h]
  · intro h
    simp [serve, h]
  · intro hbody hct
    have hlen : (List.length (readBody r) == 0) = false := by
      cases hb : readBody r with
      | nil => exact absurd hb hbody
      | cons a l => simp
    have hne : (r.ContentType != lit "application/json") = true := by simpa using hct
    simp only [serve, hlen, hne, Bool.false_eq_true, if_false, if_true]

/-- C13 (the code at the failing input): on a review without request `validate` panics
on `req.Kind`, and so does `serve` for the path `/validate` after the envelope has
decoded, while the same envelope on another path is served. -/
theorem validate_missing_request_panics :
    validate decAccept (storeOk 1 threeMembers) {} = none ∧
    serve decAccept (storeOk 1 threeMembers) (wireOk {})
      (mkHttp "application/json" "/validate") = none ∧
    serve decAccept (storeOk 1 threeMembers) (wireOk {})
      (mkHttp "application/json" "/other") =
      some [Event.decodeEnvelope, Event.marshal {}, Event.write [123, 125]] := by
  decide

/-! ## What the verdict depends on -/

/-- C14: two requests that agree on the kind, the name and the raw payload, and see
the same decoder and the same store answers, get the same result of `validate`, the
same response (`Allowed` and `Result`) and the same calls, whatever their Operation,
Namespace, UID and UserInfo. -/
theorem validate_depends_on_kind_name_payload (dec : Decoder) (st : Store)
    (ar1 ar2 : AdmissionReview) (req1 req2 : AdmissionRequest)
    (h1 : ar1.Request = some req1) (h2 : ar2.Request = some req2)
    (hkind : req1.Kind.Kind = req2.Kind.Kind) (hname : req1.Name = req2.Name)
    (hraw : req1.Object.Raw = req2.Object.Raw) :
    ∃ resp calls, validate dec st ar1 = some (resp, calls) ∧
      validate dec st ar2 = some (resp, calls) := by
  obtain ⟨resp, calls, hv⟩ := validate_returns dec st ar2 req2 h2
  refine ⟨resp, calls, ?_, hv⟩
  rw [← hv]
  simp only [validate, h1, h2, hkind, hname, hraw]

/-- Witness of C14: a CREATE request by another user in another namespace for the pod
`etcd-0` is answered like the DELETE request. -/
theorem validate_depends_on_kind_name_payload_witness :
    ∃ resp calls,
      validate decAccept (storeOk 1 threeMembers)
        { Request := some { mkReq "Pod" "etcd-0" with
            UID := lit "u-2", Namespace := lit "kube-system", Operation := lit "CREATE",
            UserInfo := lit "admin" } } = some (resp, calls) ∧
      validate decAccept (storeOk 1 threeMembers) (mkReview "Pod" "etcd-0") =
        some (resp, calls) :=
  validate_depends_on_kind_name_payload decAccept (storeOk 1 threeMembers)
    { Request := some { mkReq "Pod" "etcd-0" with
        UID := lit "u-2", Namespace := lit "kube-system", Operation := lit "CREATE",
        UserInfo := lit "admin" } }
    (mkReview "Pod" "etcd-0")
    { mkReq "Pod" "etcd-0" with
        UID := lit "u-2", Namespace := lit "kube-system", Operation := lit "CREATE",
        UserInfo := lit "admin" }
    (mkReq "Pod" "etcd-0") rfl rfl rfl rfl rfl

/-! ## Name resolution -/

/-- The loop stops at the first member with the requested name: the members before it
do not match and the members after it are not looked at. -/
theorem deletePodId_first_match (before after : List Member) (m : Member) (name : GoString)
    (hno : ∀ v ∈ before, v.Name ≠ name) (hm : m.Name = name) :
    deletePodId (before ++ m :: after) name = m.ID := by
  induction before with
  | nil => simp [deletePodId, hm]
  | cons v rest ih =>
    have hv : v.Name ≠ name := hno v (List.mem_cons_self v rest)
    have hrest : ∀ w ∈ rest, w.Name ≠ name := fun w hw => hno w (List.mem_cons_of_mem v hw)
    simp [deletePodId, hv, ih hrest]

/-- C16: name resolution in `validate` is first-match in list order.  For a Pod request
whose payload decodes, with a prefixed name and a fetched snapshot whose member list is
`before ++ m :: after`, where no member of `before` has the request name and `m` has
it: the loop yields the ID of `m` whatever `after` holds, the verdict is the decision of
lines 146-160 taken on the ID of `m`, the leader ID and the length of the list, and when
the ID of `m` is 0 the verdict is the one returned for any list in which no member has
the request name, the denial with reason "get deletePodId error". -/
theorem validate_first_match (dec : Decoder) (st : Store) (ar : AdmissionReview)
    (req : AdmissionRequest) (pod : Pod) (status : StatusResponse)
    (before after : List Member) (m : Member)
    (har : ar.Request = some req) (hkind : req.Kind.Kind = lit "Pod")
    (hdec : dec req.Object.Raw = .ok pod)
    (hpre : HasPrefix req.Name etcdPodPrefix = some true)
    (hnew : st.New = .ok ()) (hst : st.Status = .ok status)
    (hml : st.MemberList = .ok { Members := before ++ m :: after })
    (hno : ∀ v ∈ before, v.Name ≠ req.Name) (hm : m.Name = req.Name) :
    (∀ others, deletePodId (before ++ m :: others) req.Name = m.ID) ∧
    validate dec st ar =
      (if m.ID == 0 then
        EXIT false (some { Reason := lit "get deletePodId error" })
          [Call.decode, Call.clientNew, Call.status, Call.memberList, Call.close]
      else if m.ID != status.Leader || (before ++ m :: after).length == 1 then
        EXIT true none [Call.decode, Call.clientNew, Call.status, Call.memberList, Call.close]
      else
        EXIT false (some { Reason := lit "delete pod forbidented!" })
          [Call.decode, Call.clientNew, Call.status, Call.memberList, Call.close]) ∧
    (m.ID = 0 →
      validate dec st ar =
        EXIT false (some { Reason := lit "get deletePodId error" })
          [Call.decode, Call.clientNew, Call.status, Call.memberList, Call.close] ∧
      ∀ unmatched : List Member, (∀ v ∈ unmatched, v.Name ≠ req.Name) →
        validate dec { st with MemberList := .ok { Members := unmatched } } ar =
          validate dec st ar) := by
  have hid : deletePodId (before ++ m :: after) req.Name = m.ID :=
    deletePodId_first_match before after m req.Name hno hm
  have hv := validate_of_snapshot dec st ar req pod status { Members := before ++ m :: after }
    har hkind hdec hpre hnew hst hml
  simp only [hid] at hv
  refine ⟨fun others => deletePodId_first_match before others m req.Name hno hm, hv, ?_⟩
  intro h0
  have hdeny : validate dec st ar =
      EXIT false (some { Reason := lit "get deletePodId error" })
        [Call.decode, Call.clientNew, Call.status, Call.memberList, Call.close] := by
    rw [hv]
    simp [h0]
  refine ⟨hdeny, ?_⟩
  intro unmatched hun
  rw [hdeny, validate_of_snapshot dec { st with MemberList := .ok { Members := unmatched } } ar
    req pod status { Members := unmatched } har hkind hdec hpre hnew hst rfl,
    deletePodId_of_no_match unmatched req.Name hun]
  simp

/-- Witness of C16: two members are called `etcd-0`; the first (ID 1) decides, the
second (ID 2, the leader) is ignored. -/
theorem validate_first_match_witness :
    validate decAccept (storeOk 2 sameNameMembers) (mkReview "Pod" "etcd-0") =
      some ({ Allowed := true, Result := none },
        [Call.decode, Call.clientNew, Call.status, Call.memberList, Call.close]) ∧
    validate decAccept (storeOk 2 sameNameMembers) (mkReview "Pod" "etcd-0") =
      (if (1 : Nat) == 0 then
        EXIT false (some { Reason := lit "get deletePodId error" })
          [Call.decode, Call.clientNew, Call.status, Call.memberList, Call.close]
      else if (1 : Nat) != 2 || sameNameMembers.length == 1 then
        EXIT true none [Call.decode, Call.clientNew, Call.status, Call.memberList, Call.close]
      else
        EXIT false (some { Reason := lit "delete pod forbidented!" })
          [Call.decode, Call.clientNew, Call.status, Call.memberList, Call.close]) :=
  ⟨by decide,
    (validate_first_match decAccept (storeOk 2 sameNameMembers) (mkReview "Pod" "etcd-0")
      (mkReq "Pod" "etcd-0") { Name := [], Namespace := [] } { Leader := 2 }
      [] [{ ID := 2, Name := lit "etcd-0" }] { ID := 1, Name := lit "etcd-0" }
      rfl rfl rfl (by decide) rfl rfl rfl (by decide) rfl).2.1⟩

end Webhook
